import Mathlib

/-!
Verification of the core RAG (retrieval-augmented generation) pipeline of the
document question-answering system: the text chunker, the vector upsert and
query adapter, the retrieval statistics, and the answer synthesizer.

Texts are embedded as `List Char`; Python `str.strip`, `str.rfind` and slicing
are given their documented semantics; scores are embedded as rationals;
Python dictionaries returned over the API boundary are embedded as
association lists of string keys to a small value universe `PyVal`.
-/

namespace RAGQA

/-! ## Chunker: `chunk_text` from `chunking_service.py` -/

/-- Whitespace predicate matching Python `str.strip`'s default charset. -/
def pyIsSpace (c : Char) : Bool :=
  c == ' ' || c == '\t' || c == '\n' || c == '\r' || c == '\x0b' || c == '\x0c'

/-- Python `str.strip()`: remove leading and trailing whitespace. -/
def pyStrip (s : List Char) : List Char :=
  ((s.dropWhile pyIsSpace).reverse.dropWhile pyIsSpace).reverse

/-- The pattern `p` occurs in `t` starting at position `s`. -/
def matchesAt (t p : List Char) (s : Nat) : Bool :=
  (t.drop s).take p.length == p

/-- Start positions at which `p` occurs entirely inside the slice `t[a:b]`
(Python substring search semantics: the whole pattern must be contained in
the slice, whose right edge is clamped to the length of `t`). -/
def rfindHits (t p : List Char) (a b : Nat) : List Nat :=
  (List.range (min b t.length)).filter
    (fun s => decide (a ≤ s) && decide (s + p.length ≤ min b t.length) && matchesAt t p s)

/-- Fold computing the maximum of a list of naturals, as an `Int`,
with `-1` as the value for the empty list (Python `rfind`'s miss value). -/
def foldlMax (l : List Nat) (i : Int) : Int :=
  l.foldl (fun acc s => max acc (s : Int)) i

/-- Python `str.rfind(p, a, b)`: the highest index at which `p` is found
within `t[a:b]`, or `-1` if there is none. -/
def pyRfind (t p : List Char) (a b : Nat) : Int :=
  foldlMax (rfindHits t p a b) (-1)

/-- The `best_break` of the loop body: Python `max(sentence_ends)`, the
maximum of the four `rfind` results over the slice `[e, se)`. -/
def bestBreak (t : List Char) (e se : Nat) : Int :=
  max (max (max (pyRfind t ['.', ' '] e se)
                (pyRfind t ['!', ' '] e se))
           (pyRfind t ['?', ' '] e se))
      (pyRfind t ['\n'] e se)

/-- One loop iteration's computation of the window end (lines 367-386 of the
source): candidate end `start + chunk_size`; if that is not the final window,
take the maximum of the four `rfind` results over the lookahead slice
`[end, min (end+100) len)` and extend to one past it when it exceeds `end`. -/
def computeEnd (t : List Char) (chunk_size start : Nat) : Nat :=
  if start + chunk_size < t.length then
    if ((start + chunk_size : Nat) : Int) <
        bestBreak t (start + chunk_size) (min (start + chunk_size + 100) t.length) then
      (bestBreak t (start + chunk_size) (min (start + chunk_size + 100) t.length) + 1).toNat
    else start + chunk_size
  else start + chunk_size

/-- The chunking loop (lines 366-400 of the source), with explicit fuel.
Each iteration extracts and trims `t[start:end]`, appends it when non-empty,
advances `start` to `end - overlap` and stops when the new start is `≤ 0`
or `≥ len(t)`. -/
def chunkLoop : Nat → List Char → Nat → Nat → Nat → List (List Char) → List (List Char)
  | 0, _, _, _, _, acc => acc
  | fuel + 1, t, cs, ov, start, acc =>
    if start < t.length then
      let e := computeEnd t cs start
      let chunk := pyStrip ((t.drop start).take (e - start))
      let acc' := if chunk ≠ [] then acc ++ [chunk] else acc
      if (e : Int) - ov ≤ 0 ∨ (t.length : Int) ≤ (e : Int) - ov then acc'
      else chunkLoop fuel t cs ov ((e : Int) - ov).toNat acc'
    else acc

/-- `chunk_text` from `chunking_service.py`: empty input returns `[]`;
otherwise strip, return a single chunk when the stripped text fits in
`chunk_size`, else run the chunking loop. Fuel `(pyStrip text).length`
suffices for all valid parameters (`chunk_loop_terminates`). -/
def chunk_text (text : List Char) (chunk_size overlap : Nat) : List (List Char) :=
  if text = [] then []
  else if (pyStrip text).length ≤ chunk_size then [pyStrip text]
  else chunkLoop (pyStrip text).length (pyStrip text) chunk_size overlap 0 []

/-- The four sentence-ending markers searched by the chunker. -/
def sentenceMarkers : List (List Char) := [['.', ' '], ['!', ' '], ['?', ' '], ['\n']]

/-- A sentence marker occurs at `s`, starting strictly after `e` and lying
entirely before `se` (the form of hit Python's bounded `rfind` can report
and the `best_break > end` guard accepts). -/
def markerHit (t : List Char) (e se s : Nat) : Bool :=
  decide (e < s) &&
    sentenceMarkers.any (fun p => decide (s + p.length ≤ se) && matchesAt t p s)

/-- A sentence marker merely starts at `s` inside the open region `(e, se)`,
possibly overhanging its right edge (the claim's notion of "starts in the
lookahead region"). -/
def markerStartsIn (t : List Char) (e se s : Nat) : Bool :=
  decide (e < s) && decide (s < se) && sentenceMarkers.any (fun p => matchesAt t p s)

/-- Concrete text witnessing the boundary behavior: 104 letters followed by
". ", so the period-space marker starts at offset 104. -/
def boundaryText : List Char := List.replicate 104 'a' ++ ['.', ' ']

/-! ## Value universe for Python dictionaries crossing the API boundary -/

/-- A small universe of Python values, enough to embed the dictionaries the
services return: strings, integers, rationals (for floats whose arithmetic is
never exercised, only carried), booleans, lists and string-keyed dicts. -/
inductive PyVal where
  | str : String → PyVal
  | int : Int → PyVal
  | rat : Rat → PyVal
  | bool : Bool → PyVal
  | list : List PyVal → PyVal
  | dict : List (String × PyVal) → PyVal

/-! ## Answer synthesizer: `LLMService.generate_answer` and `_build_prompt` -/

/-- A retrieved context chunk as consumed by the answer synthesizer:
the Python dict `{chunk_text, score, source: {filename, document_id,
chunk_index}}`. -/
structure ContextChunk where
  chunk_text : String
  score : Rat
  filename : String
  document_id : Int
  chunk_index : Int

/-- Python `f-string` formatting `:.2f` of a score, on the rational model:
round to two decimal places and print. -/
def fmt2 (q : Rat) : String :=
  let n : Int := round (q * 100)
  let sign := if n < 0 then "-" else ""
  let a := n.natAbs
  sign ++ toString (a / 100) ++ "." ++ (if a % 100 < 10 then "0" else "") ++ toString (a % 100)

/-- The context section of the prompt: one numbered block per chunk, starting
at 1, with filename, text and relevance (lines 206-211 of the source). -/
def contextText (chunks : List ContextChunk) : String :=
  (chunks.enum.map fun ic =>
      "\n[Document " ++ toString (ic.1 + 1) ++ "] " ++ ic.2.filename ++ "\n" ++
        ic.2.chunk_text ++ "\n(Relevance: " ++ fmt2 ic.2.score ++ ")\n").foldl
    (fun acc s => acc ++ s) ""

/-- `LLMService._build_prompt`: the full grounded-generation prompt
(lines 213-228 of the source). -/
def build_prompt (query : String) (context_chunks : List ContextChunk) : String :=
  "You are a helpful AI assistant answering questions based on provided documents.\n\nCONTEXT FROM DOCUMENTS:\n" ++
    contextText context_chunks ++
    "\n\nUSER QUESTION: " ++ query ++
    "\n\nINSTRUCTIONS:\n1. Answer the question based ONLY on the information provided in the documents above\n2. If the documents don\x27t contain enough information to answer, say so clearly\n3. Cite which documents you\x27re using (e.g., \"According to Document 1...\")\n4. Be specific and factual\n5. Keep the answer concise but complete\n\nANSWER:"

/-- The per-chunk source citation dict built on the success path
(lines 171-179 of the source). -/
def sourceDict (c : ContextChunk) : PyVal :=
  .dict [("filename", .str c.filename), ("document_id", .int c.document_id),
         ("chunk_index", .int c.chunk_index), ("relevance_score", .rat c.score)]

/-- `LLMService.generate_answer`: cap the context at `max_chunks`, build the
prompt, invoke the model (embedded as a function returning `Except`, the
exception path being `.error`), and return the success or failure dict.
The Python `try/except` around the whole body is embedded by totality:
every outcome is returned as a dict, never thrown. -/
def generate_answer (modelCall : String → Except String String) (query : String)
    (context_chunks : List ContextChunk) (max_chunks : Nat) : List (String × PyVal) :=
  let chunks := context_chunks.take max_chunks
  match modelCall (build_prompt query chunks) with
  | .ok answer =>
      [("success", .bool true), ("answer", .str answer), ("query", .str query),
       ("chunks_used", .int (chunks.length : Int)),
       ("sources", .list (chunks.map sourceDict))]
  | .error e =>
      [("success", .bool false), ("error", .str e), ("query", .str query)]

/-! ## Vector index adapter: `PineconeService` -/

/-- A prepared vector record: the tuple `(id, embedding, metadata)` built by
`upsert_embeddings` (lines 504-520 of the source). -/
structure VectorEntry where
  id : String
  embedding : List Rat
  metadata : List (String × PyVal)

/-- Python `dict.update`: keys already present keep their position and take
the new value; new keys are appended in order. -/
def dictUpdate (d u : List (String × PyVal)) : List (String × PyVal) :=
  (d.map fun kv =>
    match u.find? (fun kv2 => kv2.1 == kv.1) with
    | some kv2 => kv2
    | none => kv) ++
    u.filter (fun kv2 => !(d.any (fun kv => kv.1 == kv2.1)))

/-- The deterministic vector id `f"doc_{document_id}_chunk_{i}"`. -/
def mkVectorId (document_id : Int) (i : Nat) : String :=
  "doc_" ++ toString document_id ++ "_chunk_" ++ toString i

/-- The metadata dict for chunk `i`: document id, chunk index, the chunk text
truncated to 1000 characters, then any caller metadata merged in. -/
def entryMetadata (document_id : Int) (i : Nat) (chunk : String)
    (metadata : Option (List (String × PyVal))) : List (String × PyVal) :=
  let base := [("document_id", PyVal.int document_id), ("chunk_index", PyVal.int (i : Int)),
               ("chunk_text", PyVal.str (chunk.take 1000))]
  match metadata with
  | some m => dictUpdate base m
  | none => base

/-- The record-preparation loop of `PineconeService.upsert_embeddings`
(lines 501-520 of the source): `for i, (chunk, embedding) in
enumerate(zip(chunks, embeddings))`. -/
def prepare_vectors (document_id : Int) (chunks : List String)
    (embeddings : List (List Rat)) (metadata : Option (List (String × PyVal))) :
    List VectorEntry :=
  (chunks.zip embeddings).enum.map fun ice =>
    { id := mkVectorId document_id ice.1
      embedding := ice.2.2
      metadata := entryMetadata document_id ice.1 ice.2.1 metadata }

/-- `PineconeService.upsert_embeddings`: prepare the records, send them to the
index (embedded as a function returning `Except`; Pinecone reports an
`upserted_count`), and return the success or failure dict. -/
def upsert_embeddings (indexUpsert : List VectorEntry → Except String Nat)
    (document_id : Int) (chunks : List String) (embeddings : List (List Rat))
    (metadata : Option (List (String × PyVal))) : List (String × PyVal) :=
  let vectors := prepare_vectors document_id chunks embeddings metadata
  match indexUpsert vectors with
  | .ok n =>
      [("success", .bool true), ("upserted_count", .int (n : Int)),
       ("document_id", .int document_id)]
  | .error e =>
      [("success", .bool false), ("error", .str e), ("document_id", .int document_id)]

/-- Modelled from the spec: the external vector index's upsert semantics,
absent from the sources (Pinecone is an external service). Per the spec,
"same id ⇒ replace, not duplicate": every stored record whose id collides
with an incoming record is replaced. -/
def pineconeUpsert (index : List VectorEntry) (vs : List VectorEntry) : List VectorEntry :=
  index.filter (fun r => vs.all (fun v => v.id != r.id)) ++ vs

/-! ## Vector index query and retrieval statistics -/

/-- The metadata of a stored match as the retrieval pipeline reads it. -/
structure MatchMeta where
  document_id : Int
  chunk_index : Int
  chunk_text : String
  filename : String

/-- A record stored in the external index, carrying its similarity score
against the query under consideration (the cosine similarity itself is the
external index's computation and is abstracted into the field). -/
structure IndexRecord where
  id : String
  score : Rat
  metadata : MatchMeta

/-- The ranking order of the external index: descending score, ties broken by
ascending chunk index. -/
def rankLe (a b : IndexRecord) : Bool :=
  decide (b.score < a.score) ||
    (decide (a.score = b.score) && decide (a.metadata.chunk_index ≤ b.metadata.chunk_index))

/-- Modelled from the spec: the external index's query, absent from the
sources (Pinecone is an external service). Per the spec's Vector Index
Adapter contract, it returns at most `top_k` matches within the optional
metadata filter, ordered by descending score with ties broken by ascending
`chunk_index`. -/
def indexQuery (stored : List IndexRecord) (top_k : Nat) (filt : IndexRecord → Bool) :
    List IndexRecord :=
  ((stored.filter filt).mergeSort rankLe).take top_k

/-- The formatted match dict returned by `PineconeService.query_similar`
(lines 578-583 of the source): `{id, score, metadata}`. -/
structure QueryMatch where
  id : String
  score : Rat
  metadata : MatchMeta

/-- `PineconeService.query_similar`: query the index and re-shape each match
into `{id, score, metadata}`, preserving the index's order. -/
def query_similar (stored : List IndexRecord) (top_k : Nat) (filt : IndexRecord → Bool) :
    List QueryMatch :=
  (indexQuery stored top_k filt).map fun m =>
    { id := m.id, score := m.score, metadata := m.metadata }

/-- The retrieval statistics attached to a retrieval result. -/
structure RetrievalStats where
  chunks_retrieved : Nat
  chunks_after_filter : Nat
  top_k : Nat
  min_score : Rat

/-- Modelled from the spec: the Retrieval Ranker `retrieve(query, top_k,
min_score, filter)`, whose implementation (the `min_score`-filtering route
handler) is not among the sources — only an earlier route without
`min_score` and the frontend caller passing `min_score` are. Per the spec:
query the index with `top_k`, drop matches scoring below `min_score`, and
report `chunks_retrieved` (count before the filter) and
`chunks_after_filter` (count after). -/
def retrieve (stored : List IndexRecord) (top_k : Nat) (min_score : Rat)
    (filt : IndexRecord → Bool) : List QueryMatch × RetrievalStats :=
  let found := query_similar stored top_k filt
  let kept := found.filter (fun m => decide (min_score ≤ m.score))
  (kept,
   { chunks_retrieved := found.length, chunks_after_filter := kept.length,
     top_k := top_k, min_score := min_score })

end RAGQA

namespace RAGQA

/-! ## Basic lemmas about the maximum fold and `pyRfind` -/

theorem foldlMax_nil (i : Int) : foldlMax [] i = i := rfl

theorem foldlMax_cons (x : Nat) (xs : List Nat) (i : Int) :
    foldlMax (x :: xs) i = foldlMax xs (max i (x : Int)) := rfl

theorem init_le_foldlMax (l : List Nat) : ∀ i : Int, i ≤ foldlMax l i := by
  induction l with
  | nil => intro i; rw [foldlMax_nil]
  | cons x xs ih =>
    intro i
    rw [foldlMax_cons]
    exact le_trans (le_max_left _ _) (ih (max i x))

theorem le_foldlMax (l : List Nat) : ∀ (i : Int) (s : Nat), s ∈ l → (s : Int) ≤ foldlMax l i := by
  induction l with
  | nil => intro i s hs; cases hs
  | cons x xs ih =>
    intro i s hs
    rw [foldlMax_cons]
    rcases List.mem_cons.mp hs with h | h
    · subst h
      exact le_trans (le_max_right _ _) (init_le_foldlMax xs _)
    · exact ih (max i x) s h

theorem foldlMax_cases (l : List Nat) : ∀ i : Int,
    foldlMax l i = i ∨ ∃ s ∈ l, foldlMax l i = (s : Int) := by
  induction l with
  | nil => intro i; left; rw [foldlMax_nil]
  | cons x xs ih =>
    intro i
    rw [foldlMax_cons]
    rcases ih (max i x) with h | ⟨s, hs, h⟩
    · rcases max_choice i (x : Int) with hm | hm
      · left; rw [h, hm]
      · right; exact ⟨x, List.mem_cons_self x xs, by rw [h, hm]⟩
    · right; exact ⟨s, List.mem_cons_of_mem _ hs, h⟩

theorem mem_rfindHits {t p : List Char} {a b s : Nat} :
    s ∈ rfindHits t p a b ↔
      s < min b t.length ∧ a ≤ s ∧ s + p.length ≤ min b t.length ∧ matchesAt t p s = true := by
  simp [rfindHits, List.mem_filter, List.mem_range, and_assoc]

theorem pyRfind_cases (t p : List Char) (a b : Nat) :
    pyRfind t p a b = -1 ∨ ∃ s ∈ rfindHits t p a b, pyRfind t p a b = (s : Int) :=
  foldlMax_cases _ _

theorem le_pyRfind {t p : List Char} {a b s : Nat} (hs : s ∈ rfindHits t p a b) :
    (s : Int) ≤ pyRfind t p a b :=
  le_foldlMax _ _ _ hs

/-! ## Helper lemmas: index query ordering -/

theorem rankLe_trans (a b c : IndexRecord) (hab : rankLe a b = true) (hbc : rankLe b c = true) :
    rankLe a c = true := by
  simp only [rankLe, Bool.or_eq_true, Bool.and_eq_true, decide_eq_true_eq] at *
  rcases hab with h1 | ⟨h1, h1i⟩ <;> rcases hbc with h2 | ⟨h2, h2i⟩
  · exact Or.inl (lt_trans h2 h1)
  · exact Or.inl (h2 ▸ h1)
  · exact Or.inl (h1 ▸ h2)
  · exact Or.inr ⟨h1.trans h2, le_trans h1i h2i⟩

theorem rankLe_total (a b : IndexRecord) : (rankLe a b || rankLe b a) = true := by
  simp only [rankLe, Bool.or_eq_true, Bool.and_eq_true, decide_eq_true_eq]
  rcases lt_trichotomy a.score b.score with h | h | h
  · exact Or.inr (Or.inl h)
  · rcases le_total a.metadata.chunk_index b.metadata.chunk_index with hi | hi
    · exact Or.inl (Or.inr ⟨h, hi⟩)
    · exact Or.inr (Or.inr ⟨h.symm, hi⟩)
  · exact Or.inl (Or.inl h)

theorem query_similar_length_le (stored : List IndexRecord) (top_k : Nat)
    (filt : IndexRecord → Bool) : (query_similar stored top_k filt).length ≤ top_k := by
  simp only [query_similar, indexQuery, List.length_map]
  exact le_trans (List.length_take_le _ _) (le_refl _)

theorem query_similar_pairwise (stored : List IndexRecord) (top_k : Nat)
    (filt : IndexRecord → Bool) :
    (query_similar stored top_k filt).Pairwise
      (fun a b => b.score < a.score ∨
        (a.score = b.score ∧ a.metadata.chunk_index ≤ b.metadata.chunk_index)) := by
  have hs : ((stored.filter filt).mergeSort rankLe).Pairwise (fun a b => rankLe a b = true) :=
    List.sorted_mergeSort rankLe_trans rankLe_total (stored.filter filt)
  have ht : (indexQuery stored top_k filt).Pairwise (fun a b => rankLe a b = true) :=
    List.Pairwise.sublist (List.take_sublist _ _) hs
  rw [query_similar, List.pairwise_map]
  refine ht.imp ?_
  intro a b hab
  simpa only [rankLe, Bool.or_eq_true, Bool.and_eq_true, decide_eq_true_eq] using hab

/-! ## Helper lemmas: vector record preparation and the index model -/

theorem zip_getElem? {α β : Type} (l₁ : List α) (l₂ : List β) (i : Nat) :
    (l₁.zip l₂)[i]? = l₁[i]?.bind fun a => l₂[i]?.map fun b => (a, b) := by
  rw [List.zip, List.getElem?_zipWith']
  cases l₁[i]? <;> cases l₂[i]? <;> simp

theorem prepare_vectors_getElem? (d : Int) (chunks : List String)
    (embs : List (List Rat)) (meta : Option (List (String × PyVal))) (i : Nat) :
    (prepare_vectors d chunks embs meta)[i]? =
      chunks[i]?.bind fun c => embs[i]?.map fun emb =>
        { id := mkVectorId d i, embedding := emb,
          metadata := entryMetadata d i c meta } := by
  simp only [prepare_vectors, List.getElem?_map, List.getElem?_enum, zip_getElem?]
  cases chunks[i]? <;> cases embs[i]? <;> simp

theorem prepare_vectors_length (d : Int) (chunks : List String)
    (embs : List (List Rat)) (meta : Option (List (String × PyVal))) :
    (prepare_vectors d chunks embs meta).length = min chunks.length embs.length := by
  simp [prepare_vectors]

theorem pineconeUpsert_idem (index vs : List VectorEntry) :
    pineconeUpsert (pineconeUpsert index vs) vs = pineconeUpsert index vs := by
  simp only [pineconeUpsert, List.filter_append, List.filter_filter]
  have h1 : vs.filter (fun r => vs.all (fun v => v.id != r.id)) = [] := by
    rw [List.filter_eq_nil_iff]
    intro a ha hall
    have := (List.all_eq_true.mp hall) a ha
    simp at this
  have h2 : (index.filter fun r => vs.all (fun v => v.id != r.id)).filter
      (fun r => vs.all (fun v => v.id != r.id)) = index.filter fun r => vs.all (fun v => v.id != r.id) := by
    rw [List.filter_filter]
    apply List.filter_congr
    intro a _
    exact Bool.and_self _
  rw [List.filter_filter] at h2
  rw [h1, h2, List.append_nil]

end RAGQA

namespace RAGQA

/-! ## Claim theorems: service layer -/

/-- C1: for every query processed by the retrieval pipeline, the returned
retrieval statistics satisfy
`0 ≤ chunks_after_filter ≤ chunks_retrieved ≤ top_k`, where
`chunks_retrieved` counts the matches before the `min_score` filter and
`chunks_after_filter` counts those after it. -/
theorem retrieve_stats_invariant (stored : List IndexRecord) (top_k : Nat)
    (min_score : Rat) (filt : IndexRecord → Bool) :
    0 ≤ (retrieve stored top_k min_score filt).2.chunks_after_filter ∧
    (retrieve stored top_k min_score filt).2.chunks_after_filter ≤
      (retrieve stored top_k min_score filt).2.chunks_retrieved ∧
    (retrieve stored top_k min_score filt).2.chunks_retrieved ≤
      (retrieve stored top_k min_score filt).2.top_k := by
  refine ⟨Nat.zero_le _, ?_, ?_⟩
  · exact List.length_filter_le _ _
  · exact query_similar_length_le stored top_k filt

/-- C5: for every stored corpus, every `top_k` and every metadata filter,
`query_similar` returns at most `top_k` matches, ordered by descending
relevance score with ties broken by ascending `chunk_index`. -/
theorem query_similar_ordered (stored : List IndexRecord) (top_k : Nat)
    (filt : IndexRecord → Bool) :
    (query_similar stored top_k filt).length ≤ top_k ∧
    (query_similar stored top_k filt).Pairwise
      (fun a b => b.score < a.score ∨
        (a.score = b.score ∧ a.metadata.chunk_index ≤ b.metadata.chunk_index)) :=
  ⟨query_similar_length_le stored top_k filt, query_similar_pairwise stored top_k filt⟩

/-- C6: `upsert_embeddings` builds exactly one record per chunk whose id is
the deterministic function `"doc_{document_id}_chunk_{i}"` of the document id
and the chunk position — so the id list depends only on the document id and
the record count, and re-running the upsert with the same records leaves the
index unchanged (overwrite, not duplicate), on the spec-modelled index. -/
theorem upsert_ids_deterministic (d : Int) (chunks : List String)
    (embs : List (List Rat)) (meta : Option (List (String × PyVal)))
    (index : List VectorEntry) :
    (prepare_vectors d chunks embs meta).map VectorEntry.id =
      (List.range (min chunks.length embs.length)).map (mkVectorId d) ∧
    pineconeUpsert (pineconeUpsert index (prepare_vectors d chunks embs meta))
        (prepare_vectors d chunks embs meta) =
      pineconeUpsert index (prepare_vectors d chunks embs meta) := by
  constructor
  · apply List.ext_getElem?
    intro i
    simp only [List.getElem?_map, prepare_vectors_getElem?]
    by_cases hc : i < chunks.length <;> by_cases he : i < embs.length
    · rw [List.getElem?_eq_getElem hc, List.getElem?_eq_getElem he,
        List.getElem?_range (by omega : i < min chunks.length embs.length)]
      simp
    · rw [List.getElem?_eq_none (by omega : embs.length ≤ i),
        List.getElem?_eq_none (by simp; omega : (List.range (min chunks.length embs.length)).length ≤ i)]
      cases chunks[i]? <;> simp
    · rw [List.getElem?_eq_none (by omega : chunks.length ≤ i),
        List.getElem?_eq_none (by simp; omega : (List.range (min chunks.length embs.length)).length ≤ i)]
      simp
    · rw [List.getElem?_eq_none (by omega : chunks.length ≤ i),
        List.getElem?_eq_none (by simp; omega : (List.range (min chunks.length embs.length)).length ≤ i)]
      simp
  · exact pineconeUpsert_idem index _

/-- C7: whenever the generation model call fails, `generate_answer` returns
the dict `{success: false, error, query}`; the exception is absorbed at the
component boundary (the embedding is total — every outcome is a returned
dict, never a propagated exception). -/
theorem generate_answer_failure (modelCall : String → Except String String)
    (query : String) (context_chunks : List ContextChunk) (max_chunks : Nat) (e : String)
    (h : modelCall (build_prompt query (context_chunks.take max_chunks)) = .error e) :
    generate_answer modelCall query context_chunks max_chunks =
      [("success", .bool false), ("error", .str e), ("query", .str query)] := by
  simp only [generate_answer, h]

/-- Witness for `generate_answer_failure`: a concrete failing model call. -/
theorem generate_answer_failure_witness :
    generate_answer (fun _ => .error "quota exceeded") "what is RAG" [] 5 =
      [("success", .bool false), ("error", .str "quota exceeded"),
       ("query", .str "what is RAG")] :=
  generate_answer_failure _ "what is RAG" [] 5 "quota exceeded" rfl

/-- C8 counterexample: on a successful generation the returned dict's keys
are exactly `success, answer, query, chunks_used, sources` — the claimed
`retrieval_stats` key is absent. -/
theorem generate_answer_missing_stats_cex :
    (generate_answer (fun _ => .ok "the answer") "q" [] 5).map Prod.fst =
      ["success", "answer", "query", "chunks_used", "sources"] ∧
    "retrieval_stats" ∉ (generate_answer (fun _ => .ok "the answer") "q" [] 5).map Prod.fst := by
  constructor
  · rfl
  · decide

/-- C8 amended: on success, `generate_answer` returns
`{success: true, answer, query, chunks_used, sources}` (without
`retrieval_stats`), where `sources` is derived from exactly the capped chunk
list `context_chunks.take max_chunks` — the same list, in the same order,
that `build_prompt` received. -/
theorem generate_answer_success_shape (modelCall : String → Except String String)
    (query : String) (context_chunks : List ContextChunk) (max_chunks : Nat)
    (answer : String)
    (h : modelCall (build_prompt query (context_chunks.take max_chunks)) = .ok answer) :
    generate_answer modelCall query context_chunks max_chunks =
      [("success", .bool true), ("answer", .str answer), ("query", .str query),
       ("chunks_used", .int ((context_chunks.take max_chunks).length : Int)),
       ("sources", .list ((context_chunks.take max_chunks).map sourceDict))] := by
  simp only [generate_answer, h]

/-- Witness for `generate_answer_success_shape`: a concrete successful call
with one context chunk. -/
theorem generate_answer_success_shape_witness :
    generate_answer (fun _ => .ok "grounded answer") "q"
        [⟨"ai improves diagnostics", 19/20, "report.pdf", 5, 0⟩] 5 =
      [("success", .bool true), ("answer", .str "grounded answer"), ("query", .str "q"),
       ("chunks_used", .int (([⟨"ai improves diagnostics", 19/20, "report.pdf", 5, 0⟩] :
          List ContextChunk).take 5).length),
       ("sources", .list ((([⟨"ai improves diagnostics", 19/20, "report.pdf", 5, 0⟩] :
          List ContextChunk).take 5).map sourceDict))] :=
  generate_answer_success_shape _ "q" _ 5 "grounded answer" rfl

/-- C10: when the chunk list and the embedding list have different lengths,
exactly `min` of the two lengths records are prepared, chunks and embeddings
are paired positionally, and the call still reports success with the reduced
count — the surplus items are dropped with no error. -/
theorem upsert_mismatched_lengths (d : Int) (chunks : List String)
    (embs : List (List Rat)) (meta : Option (List (String × PyVal))) :
    (prepare_vectors d chunks embs meta).length = min chunks.length embs.length ∧
    (∀ i : Nat, (prepare_vectors d chunks embs meta)[i]? =
       chunks[i]?.bind fun c => embs[i]?.map fun emb =>
         { id := mkVectorId d i, embedding := emb,
           metadata := entryMetadata d i c meta }) ∧
    upsert_embeddings (fun vs => .ok vs.length) d chunks embs meta =
      [("success", PyVal.bool true),
       ("upserted_count", PyVal.int ((min chunks.length embs.length : Nat) : Int)),
       ("document_id", PyVal.int d)] := by
  refine ⟨prepare_vectors_length d chunks embs meta,
          prepare_vectors_getElem? d chunks embs meta, ?_⟩
  simp only [upsert_embeddings, prepare_vectors_length]

end RAGQA

namespace RAGQA

/-! ## Helper lemmas: the chunker -/

theorem pyStrip_length_le (s : List Char) : (pyStrip s).length ≤ s.length := by
  have h1 : (s.dropWhile pyIsSpace).length ≤ s.length :=
    (List.dropWhile_sublist _).length_le
  have h2 : ((s.dropWhile pyIsSpace).reverse.dropWhile pyIsSpace).length ≤
      (s.dropWhile pyIsSpace).reverse.length :=
    (List.dropWhile_sublist _).length_le
  simp only [pyStrip, List.length_reverse] at *
  omega

theorem pyStrip_of_all_space {s : List Char} (h : ∀ c ∈ s, pyIsSpace c = true) :
    pyStrip s = [] := by
  have h1 : s.dropWhile pyIsSpace = [] := List.dropWhile_eq_nil_iff.mpr h
  simp [pyStrip, h1]

theorem le_computeEnd (t : List Char) (cs start : Nat) :
    start + cs ≤ computeEnd t cs start := by
  rw [computeEnd]
  split_ifs with h1 h2
  · omega
  · exact le_refl _
  · exact le_refl _

theorem chunkLoop_succ (t : List Char) (cs ov : Nat) (hcs : 0 < cs) (hov : ov < cs) :
    ∀ f start acc, t.length - start ≤ f →
      chunkLoop (f + 1) t cs ov start acc = chunkLoop f t cs ov start acc := by
  intro f
  induction f with
  | zero =>
    intro start acc h
    have hs : ¬ start < t.length := by omega
    simp only [chunkLoop, if_neg hs]
  | succ f ih =>
    intro start acc h
    by_cases hs : start < t.length
    · simp only [chunkLoop, if_pos hs]
      by_cases hb : (computeEnd t cs start : Int) - ov ≤ 0 ∨
          (t.length : Int) ≤ (computeEnd t cs start : Int) - ov
      · rw [if_pos hb, if_pos hb]
      · rw [if_neg hb, if_neg hb]
        apply ih
        have he := le_computeEnd t cs start
        omega
    · simp only [chunkLoop, if_neg hs]

theorem chunkLoop_add (t : List Char) (cs ov : Nat) (hcs : 0 < cs) (hov : ov < cs) :
    ∀ k f start acc, t.length - start ≤ f →
      chunkLoop (f + k) t cs ov start acc = chunkLoop f t cs ov start acc := by
  intro k
  induction k with
  | zero => intro f start acc _; rfl
  | succ k ih =>
    intro f start acc h
    have h1 : f + (k + 1) = (f + k) + 1 := rfl
    rw [h1, chunkLoop_succ t cs ov hcs hov (f + k) start acc (by omega)]
    exact ih f start acc h

end RAGQA

namespace RAGQA

/-! ## Claim theorems: the chunker -/

/-- C9: for all parameters with `chunk_size > 0` and
`0 ≤ overlap < chunk_size`, the chunking loop terminates: its result is
independent of the fuel once the fuel covers the remaining text, because
each iteration advances `start` to `end - overlap` (which strictly
increases, as `end ≥ start + chunk_size > start + overlap`) and the loop
stops when the new start is `≤ 0` or `≥` the text length. -/
theorem chunk_loop_terminates (t : List Char) (cs ov : Nat) (hcs : 0 < cs) (hov : ov < cs)
    (f₁ f₂ start : Nat) (acc : List (List Char))
    (h₁ : t.length - start ≤ f₁) (h₂ : t.length - start ≤ f₂) :
    chunkLoop f₁ t cs ov start acc = chunkLoop f₂ t cs ov start acc := by
  rcases Nat.le_total f₁ f₂ with h | h
  · rw [show f₂ = f₁ + (f₂ - f₁) by omega]
    exact (chunkLoop_add t cs ov hcs hov (f₂ - f₁) f₁ start acc h₁).symm
  · rw [show f₁ = f₂ + (f₁ - f₂) by omega]
    exact chunkLoop_add t cs ov hcs hov (f₁ - f₂) f₂ start acc h₂

/-- Witness for `chunk_loop_terminates`: at a concrete text, two different
sufficient fuels give the same chunks. -/
theorem chunk_loop_terminates_witness :
    chunkLoop 10 (List.replicate 10 'a') 3 1 0 [] =
      chunkLoop 25 (List.replicate 10 'a') 3 1 0 [] :=
  chunk_loop_terminates (List.replicate 10 'a') 3 1 (by decide) (by decide)
    10 25 0 [] (by decide) (by decide)

/-- C2 counterexample: the empty text has length `≤ chunk_size` (with
`chunk_size = 5 > 0`, `overlap = 1 < 5`), yet `chunk_text` returns the empty
sequence, not one chunk equal to the trimmed input. -/
theorem chunk_text_empty_cex :
    0 < 5 ∧ 1 < 5 ∧ ([] : List Char).length ≤ 5 ∧
    chunk_text [] 5 1 = [] ∧ chunk_text [] 5 1 ≠ [pyStrip []] := by decide

/-- C2 amended: for all `chunk_size > 0` and `0 ≤ overlap < chunk_size`,
calling `chunk_text` on a NON-EMPTY text of length `≤ chunk_size` returns
exactly one chunk equal to the trimmed input (the empty text instead yields
the empty sequence). -/
theorem chunk_text_single_chunk (text : List Char) (chunk_size overlap : Nat)
    (hcs : 0 < chunk_size) (hov : overlap < chunk_size)
    (hne : text ≠ []) (hlen : text.length ≤ chunk_size) :
    chunk_text text chunk_size overlap = [pyStrip text] := by
  rw [chunk_text, if_neg hne, if_pos (le_trans (pyStrip_length_le text) hlen)]

/-- Witness for `chunk_text_single_chunk` at a concrete short text. -/
theorem chunk_text_single_chunk_witness :
    chunk_text ['h', 'i', ' '] 5 1 = [pyStrip ['h', 'i', ' ']] :=
  chunk_text_single_chunk ['h', 'i', ' '] 5 1 (by decide) (by decide)
    (by decide) (by decide)

/-- C4 counterexample: the whitespace-only text `" "` (with
`chunk_size = 5 > 0`, `overlap = 1 < 5`) yields the one-element sequence
containing the empty chunk, not the empty sequence: the source's emptiness
guard tests the raw text, while the single-chunk branch runs on the
stripped text. -/
theorem chunk_text_whitespace_cex :
    0 < 5 ∧ 1 < 5 ∧ (∀ c ∈ ([' '] : List Char), pyIsSpace c = true) ∧
    chunk_text [' '] 5 1 = [[]] ∧ chunk_text [' '] 5 1 ≠ [] := by decide

/-- C4 amended: for all parameters, the empty text yields the empty
sequence, and a whitespace-only but non-empty text yields the one-element
sequence containing the empty chunk; neither case is an error (the
embedding is total). -/
theorem chunk_text_whitespace (text : List Char) (chunk_size overlap : Nat)
    (hws : ∀ c ∈ text, pyIsSpace c = true) :
    chunk_text text chunk_size overlap = if text = [] then [] else [[]] := by
  by_cases h : text = []
  · rw [chunk_text, if_pos h, if_pos h]
  · rw [chunk_text, if_neg h, if_neg h, pyStrip_of_all_space hws,
      if_pos (by simp : ([] : List Char).length ≤ chunk_size)]

/-- Witness for `chunk_text_whitespace` at a concrete whitespace text. -/
theorem chunk_text_whitespace_witness :
    chunk_text [' ', '\n', '\t'] 500 50 =
      if ([' ', '\n', '\t'] : List Char) = [] then [] else [[]] :=
  chunk_text_whitespace [' ', '\n', '\t'] 500 50 (by decide)

end RAGQA

namespace RAGQA

/-! ## Sentence-boundary selection (claim C3) -/

theorem markerHit_iff {t : List Char} {e se s : Nat} :
    markerHit t e se s = true ↔
      e < s ∧ ∃ p ∈ sentenceMarkers, s + p.length ≤ se ∧ matchesAt t p s = true := by
  simp only [markerHit, Bool.and_eq_true, decide_eq_true_eq, List.any_eq_true]

theorem marker_length_pos {p : List Char} (hp : p ∈ sentenceMarkers) : 1 ≤ p.length := by
  fin_cases hp <;> decide

/-- C3 amended: whenever the candidate end `start + chunk_size` lies strictly
before the end of the text, if no marker occurrence both starts strictly
after `end` and fits entirely inside the clamped lookahead slice
`[end, min (end+100) length)`, the window end stays at `start + chunk_size`;
and when such occurrences exist, the end is extended to one past the start of
the maximum-offset one. (A marker that merely STARTS in the region but
overhangs its right edge — e.g. a ". " starting at `end+99` — does not
trigger an extension, because Python's bounded `rfind` requires the whole
pattern inside the slice; this is the sole correction to the claim.) -/
theorem computeEnd_sentence_boundary (t : List Char) (cs start m : Nat)
    (h : start + cs < t.length) :
    ((∀ s, s < min (start + cs + 100) t.length →
        markerHit t (start + cs) (min (start + cs + 100) t.length) s = false) →
      computeEnd t cs start = start + cs) ∧
    (markerHit t (start + cs) (min (start + cs + 100) t.length) m = true →
      (∀ s, s < min (start + cs + 100) t.length →
        markerHit t (start + cs) (min (start + cs + 100) t.length) s = true → s ≤ m) →
      computeEnd t cs start = m + 1) := by
  have hmin : min (min (start + cs + 100) t.length) t.length = min (start + cs + 100) t.length :=
    min_eq_left (min_le_right _ _)
  constructor
  · intro hno
    have hle : ∀ p ∈ sentenceMarkers,
        pyRfind t p (start + cs) (min (start + cs + 100) t.length) ≤ ((start + cs : Nat) : Int) := by
      intro p hp
      rcases pyRfind_cases t p (start + cs) (min (start + cs + 100) t.length) with hc | ⟨s, hs, hc⟩
      · rw [hc]; omega
      · rw [hc]
        obtain ⟨hsb, hes, hsle, hsm⟩ := mem_rfindHits.mp hs
        rw [hmin] at hsb hsle
        rcases Nat.eq_or_lt_of_le hes with heq | hlt
        · omega
        · exfalso
          have hhit : markerHit t (start + cs) (min (start + cs + 100) t.length) s = true :=
            markerHit_iff.mpr ⟨hlt, p, hp, hsle, hsm⟩
          rw [hno s hsb] at hhit
          exact Bool.false_ne_true hhit
    have h1 := hle _ (show ['.', ' '] ∈ sentenceMarkers by decide)
    have h2 := hle _ (show ['!', ' '] ∈ sentenceMarkers by decide)
    have h3 := hle _ (show ['?', ' '] ∈ sentenceMarkers by decide)
    have h4 := hle _ (show ['\n'] ∈ sentenceMarkers by decide)
    rw [computeEnd, if_pos h, if_neg]
    push_neg
    simp only [bestBreak]
    exact max_le (max_le (max_le h1 h2) h3) h4
  · intro hm hmax
    obtain ⟨hem, p, hp, hple, hpm⟩ := markerHit_iff.mp hm
    have hp1 := marker_length_pos hp
    have hmem : m ∈ rfindHits t p (start + cs) (min (start + cs + 100) t.length) :=
      mem_rfindHits.mpr ⟨by rw [hmin]; omega, le_of_lt hem, by rw [hmin]; exact hple, hpm⟩
    have hmle : (m : Int) ≤ pyRfind t p (start + cs) (min (start + cs + 100) t.length) :=
      le_pyRfind hmem
    have hub : ∀ q ∈ sentenceMarkers,
        pyRfind t q (start + cs) (min (start + cs + 100) t.length) ≤ (m : Int) := by
      intro q hq
      rcases pyRfind_cases t q (start + cs) (min (start + cs + 100) t.length) with hc | ⟨s, hs, hc⟩
      · rw [hc]; omega
      · rw [hc]
        obtain ⟨hsb, hes, hsle, hsm⟩ := mem_rfindHits.mp hs
        rw [hmin] at hsb hsle
        rcases Nat.eq_or_lt_of_le hes with heq | hlt
        · omega
        · have hhit : markerHit t (start + cs) (min (start + cs + 100) t.length) s = true :=
            markerHit_iff.mpr ⟨hlt, q, hq, hsle, hsm⟩
          exact_mod_cast hmax s hsb hhit
    have h1 := hub _ (show ['.', ' '] ∈ sentenceMarkers by decide)
    have h2 := hub _ (show ['!', ' '] ∈ sentenceMarkers by decide)
    have h3 := hub _ (show ['?', ' '] ∈ sentenceMarkers by decide)
    have h4 := hub _ (show ['\n'] ∈ sentenceMarkers by decide)
    have hbb : bestBreak t (start + cs) (min (start + cs + 100) t.length) = (m : Int) := by
      fin_cases hp <;> simp only [bestBreak] at hmle ⊢ <;> omega
    rw [computeEnd, if_pos h, if_pos (by rw [hbb]; exact_mod_cast hem), hbb]
    omega

/-- Witness for `computeEnd_sentence_boundary`: the text
`"aaaaaa. bbbbbb"` with `chunk_size = 5` has its only qualifying ". "
occurrence at offset 6, and the window end is extended to 7. -/
theorem computeEnd_sentence_boundary_witness :
    computeEnd ['a', 'a', 'a', 'a', 'a', 'a', '.', ' ', 'b', 'b', 'b', 'b', 'b', 'b'] 5 0 =
      6 + 1 :=
  (computeEnd_sentence_boundary
      ['a', 'a', 'a', 'a', 'a', 'a', '.', ' ', 'b', 'b', 'b', 'b', 'b', 'b'] 5 0 6
      (by decide)).2 (by decide) (by decide)

/-- C3 counterexample: in `boundaryText` (104 letters then ". "), with
`chunk_size = 5` and `start = 0`, the marker ". " starts at offset 104,
inside the claim's lookahead region `(5, min (5+100) 106) = (5, 105)` — and
it is the maximal such start — yet the window end is NOT extended to
`104 + 1 = 105`: it stays at 5, because the marker's second character lies
at offset 105, outside the bounded `rfind` slice `[5, 105)`. -/
theorem chunk_boundary_marker_cex :
    0 + 5 < boundaryText.length ∧
    markerStartsIn boundaryText 5 (min (5 + 100) boundaryText.length) 104 = true ∧
    (∀ s, s < min (5 + 100) boundaryText.length →
       markerStartsIn boundaryText 5 (min (5 + 100) boundaryText.length) s = true → s ≤ 104) ∧
    computeEnd boundaryText 5 0 = 5 ∧ (5 : Nat) ≠ 104 + 1 := by decide

end RAGQA
